import Mathlib

/-!
Verification of the snippet-storage CLI (src/main.rs).

The development shallowly embeds the program: the `Snippet` data entity, the
RFC3339 timestamp serialization used by the storage layer (modelling the
time crate behaviour invoked at src/main.rs:115 and :139), the two storage
backends (JSON file and SQLite table), the storage selector `init_storage`,
and the command dispatcher of `main`.
-/

/-- In-memory timestamp, embedding the fields of the time crate value
`OffsetDateTime` stored in `Snippet.created_at` (src/main.rs:42): calendar
components, a nanosecond part, and a UTC offset kept in whole seconds. -/
structure Timestamp where
  year : Int
  month : Nat
  day : Nat
  hour : Nat
  minute : Nat
  second : Nat
  nanosecond : Nat
  offset : Int
deriving DecidableEq, Repr

/-- One stored item: content plus creation timestamp (src/main.rs:40-43). -/
structure Snippet where
  content : String
  created_at : Timestamp
deriving DecidableEq, Repr

/-- Leap-year test of the proleptic Gregorian calendar, as used by the time
crate to validate the day component. -/
def isLeap (y : Int) : Bool :=
  y % 4 = 0 && (y % 100 ≠ 0 || y % 400 = 0)

/-- Number of days of a month, used to validate the day component. -/
def daysInMonth (y : Int) (m : Nat) : Nat :=
  if m = 2 then (if isLeap y then 29 else 28)
  else if m = 4 || m = 6 || m = 9 || m = 11 then 30
  else 31

/-- Invariant of the time crate value `OffsetDateTime`: components in range.
The offset bound is the ±25:59:59 range of `UtcOffset`. -/
def Timestamp.Valid (t : Timestamp) : Prop :=
  1 ≤ t.month ∧ t.month ≤ 12 ∧
  1 ≤ t.day ∧ t.day ≤ daysInMonth t.year t.month ∧
  t.hour ≤ 23 ∧ t.minute ≤ 59 ∧ t.second ≤ 59 ∧
  t.nanosecond < 1000000000 ∧
  t.offset.natAbs ≤ 25 * 3600 + 59 * 60 + 59

instance (t : Timestamp) : Decidable t.Valid := by
  unfold Timestamp.Valid; infer_instance

/-- The character of one decimal digit. -/
def digitChar (n : Nat) : Char := Char.ofNat (48 + n)

/-- Two-digit zero-padded decimal, as the time crate formatter pads month,
day, hour, minute, second and the offset components. -/
def pad2 (n : Nat) : List Char := [digitChar (n / 10), digitChar (n % 10)]

/-- Four-digit zero-padded decimal for the year. -/
def pad4 (n : Nat) : List Char :=
  [digitChar (n / 1000), digitChar (n / 100 % 10), digitChar (n / 10 % 10),
   digitChar (n % 10)]

/-- Nine-digit zero-padded decimal for the nanosecond part. -/
def pad9 (n : Nat) : List Char :=
  [digitChar (n / 100000000 % 10), digitChar (n / 10000000 % 10),
   digitChar (n / 1000000 % 10), digitChar (n / 100000 % 10),
   digitChar (n / 10000 % 10), digitChar (n / 1000 % 10),
   digitChar (n / 100 % 10), digitChar (n / 10 % 10), digitChar (n % 10)]

/-- Remove trailing zero digits, as the RFC3339 formatter of the time crate
trims the subsecond part. -/
def trimZeros (l : List Char) : List Char :=
  (l.reverse.dropWhile (fun c => c = '0')).reverse

/-- Subsecond text: empty when the nanosecond part is zero, otherwise a dot
followed by the nine nanosecond digits with trailing zeros trimmed. -/
def subsecChars (ns : Nat) : List Char :=
  if ns = 0 then [] else '.' :: trimZeros (pad9 ns)

/-- Offset text: the letter Z for UTC, otherwise sign, two hour digits, a
colon and two minute digits. -/
def offsetChars (off : Int) : List Char :=
  if off = 0 then ['Z']
  else (if off < 0 then '-' else '+') ::
    (pad2 (off.natAbs / 3600) ++ ':' :: pad2 (off.natAbs % 3600 / 60))

/-- RFC3339 serialization of a timestamp, embedding
`OffsetDateTime::format(&Rfc3339)` as called at src/main.rs:139 and :204.
The time crate formatter fails (`Err`) when the year is outside 0..=9999 or
the offset has a nonzero whole-second component, since RFC3339 cannot
represent either; both failures are propagated by the program with `?`. -/
def formatRfc3339 (t : Timestamp) : Option (List Char) :=
  if 0 ≤ t.year ∧ t.year < 10000 ∧ t.offset % 60 = 0 then
    some (pad4 t.year.toNat ++ '-' :: (pad2 t.month ++ '-' :: (pad2 t.day ++
      'T' :: (pad2 t.hour ++ ':' :: (pad2 t.minute ++ ':' :: (pad2 t.second ++
      (subsecChars t.nanosecond ++ offsetChars t.offset)))))))
  else none

/-- Numeric value of one decimal digit character, or failure. -/
def digit? (c : Char) : Option Nat :=
  if 48 ≤ c.toNat ∧ c.toNat ≤ 57 then some (c.toNat - 48) else none

/-- Parse exactly two decimal digits. -/
def parse2 : List Char → Option (Nat × List Char)
  | a :: b :: rest => do
    let x ← digit? a
    let y ← digit? b
    pure (10 * x + y, rest)
  | _ => none

/-- Parse exactly four decimal digits. -/
def parse4 : List Char → Option (Nat × List Char)
  | a :: b :: c :: d :: rest => do
    let x ← digit? a
    let y ← digit? b
    let z ← digit? c
    let w ← digit? d
    pure (1000 * x + 100 * y + 10 * z + w, rest)
  | _ => none

/-- Consume one expected character. -/
def expectChar (c : Char) : List Char → Option (List Char)
  | x :: rest => if x = c then some rest else none
  | [] => none

/-- Consume the date-time separator, which RFC3339 allows to be T, t or a
space. -/
def expectSep : List Char → Option (List Char)
  | x :: rest => if x = 'T' ∨ x = 't' ∨ x = ' ' then some rest else none
  | [] => none

/-- Decimal digit test. -/
def isDigitCh (c : Char) : Bool := 48 ≤ c.toNat && c.toNat ≤ 57

/-- Value of a list of decimal digit characters, most significant first. -/
def digitsVal (l : List Char) : Nat :=
  l.foldl (fun a c => 10 * a + (c.toNat - 48)) 0

/-- Parse an optional fractional-second part: a dot followed by one to nine
digits, scaled to nanoseconds; absent means zero nanoseconds. -/
def parseFrac : List Char → Option (Nat × List Char)
  | '.' :: rest =>
    let ds := rest.takeWhile isDigitCh
    if ds.length = 0 ∨ 9 < ds.length then none
    else some (digitsVal ds * 10 ^ (9 - ds.length), rest.dropWhile isDigitCh)
  | l => some (0, l)

/-- Tail of the numeric offset: the colon and the minute digits. -/
def parseOffNumTail (l : List Char) : Option (Nat × List Char) := do
  let l₁ ← expectChar ':' l
  parse2 l₁

/-- Parse a numeric offset after its sign: two hour digits, a colon, two
minute digits, validated against the offset range of the time crate. -/
def parseOffNum (sign : Int) (l : List Char) : Option (Int × List Char) := do
  let (h, l₁) ← parse2 l
  let (m, l₂) ← parseOffNumTail l₁
  if h ≤ 25 ∧ m ≤ 59 then pure (sign * (3600 * h + 60 * m), l₂) else none

/-- Parse the offset part: Z or z for UTC, or a signed hour:minute pair. -/
def parseOffset : List Char → Option (Int × List Char)
  | 'Z' :: rest => some (0, rest)
  | 'z' :: rest => some (0, rest)
  | '+' :: rest => parseOffNum 1 rest
  | '-' :: rest => parseOffNum (-1) rest
  | _ => none

/-- Parse the date part: four year digits, dash, month, dash, day. -/
def parseDate (l : List Char) : Option (Nat × Nat × Nat × List Char) := do
  let (year, l₁) ← parse4 l
  let l₂ ← expectChar '-' l₁
  let (month, l₃) ← parse2 l₂
  let l₄ ← expectChar '-' l₃
  let (day, l₅) ← parse2 l₄
  pure (year, month, day, l₅)

/-- Parse the time-of-day part: hour, colon, minute, colon, second. -/
def parseTime (l : List Char) : Option (Nat × Nat × Nat × List Char) := do
  let (hour, l₁) ← parse2 l
  let l₂ ← expectChar ':' l₁
  let (minute, l₃) ← parse2 l₂
  let l₄ ← expectChar ':' l₃
  let (second, l₅) ← parse2 l₄
  pure (hour, minute, second, l₅)

/-- Component validation performed by the time crate when assembling the
parsed value. -/
def componentsOk (year : Nat) (month day hour minute second : Nat) : Prop :=
  1 ≤ month ∧ month ≤ 12 ∧ 1 ≤ day ∧ day ≤ daysInMonth (year : Int) month ∧
  hour ≤ 23 ∧ minute ≤ 59 ∧ second ≤ 59

instance (y m d h mi s : Nat) : Decidable (componentsOk y m d h mi s) := by
  unfold componentsOk; infer_instance

/-- RFC3339 parsing of a timestamp, embedding
`OffsetDateTime::parse(&created_at_str, &Rfc3339)` as called at
src/main.rs:115: fixed-width date and time fields, optional fraction,
offset, and the component validation the time crate performs. -/
def parseRfc3339 (l : List Char) : Option Timestamp := do
  let (year, month, day, l₁) ← parseDate l
  let l₂ ← expectSep l₁
  let (hour, minute, second, l₃) ← parseTime l₂
  let (ns, l₄) ← parseFrac l₃
  let (off, l₅) ← parseOffset l₄
  if l₅ = [] ∧ componentsOk year month day hour minute second then
    pure ⟨(year : Int), month, day, hour, minute, second, ns, off⟩
  else none

lemma toNat_digitChar {d : Nat} (h : d ≤ 9) : (digitChar d).toNat = 48 + d := by
  interval_cases d <;> rfl

lemma digit?_digitChar {d : Nat} (h : d ≤ 9) : digit? (digitChar d) = some d := by
  rw [digit?, toNat_digitChar h, if_pos (by omega)]
  congr 1
  omega

lemma isDigitCh_digitChar {d : Nat} (h : d ≤ 9) : isDigitCh (digitChar d) = true := by
  rw [isDigitCh, toNat_digitChar h]
  simp only [Bool.and_eq_true, decide_eq_true_eq]
  omega

lemma parse2_pad2 (n : Nat) (rest : List Char) (h : n < 100) :
    parse2 (pad2 n ++ rest) = some (n, rest) := by
  simp [pad2, parse2, digit?_digitChar (show n / 10 ≤ 9 by omega),
    digit?_digitChar (show n % 10 ≤ 9 by omega)]
  omega

lemma parse4_pad4 (n : Nat) (rest : List Char) (h : n < 10000) :
    parse4 (pad4 n ++ rest) = some (n, rest) := by
  simp [pad4, parse4, digit?_digitChar (show n / 1000 ≤ 9 by omega),
    digit?_digitChar (show n / 100 % 10 ≤ 9 by omega),
    digit?_digitChar (show n / 10 % 10 ≤ 9 by omega),
    digit?_digitChar (show n % 10 ≤ 9 by omega)]
  omega

lemma expectChar_cons (c : Char) (rest : List Char) :
    expectChar c (c :: rest) = some rest := by
  simp [expectChar]

lemma expectSep_T (rest : List Char) : expectSep ('T' :: rest) = some rest := by
  simp [expectSep]

lemma parse2_pad2_nil (n : Nat) (h : n < 100) : parse2 (pad2 n) = some (n, []) := by
  have := parse2_pad2 n [] h
  simpa using this

lemma mem_of_mem_dropWhile {p : Char → Bool} :
    ∀ {l : List Char} {c : Char}, c ∈ l.dropWhile p → c ∈ l := by
  intro l
  induction l with
  | nil => intro c hc; simp [List.dropWhile] at hc
  | cons a t ih =>
    intro c hc
    rw [List.dropWhile] at hc
    by_cases hp : p a
    · simp only [hp] at hc
      exact List.mem_cons_of_mem a (ih hc)
    · simp only [Bool.not_eq_true] at hp
      simp only [hp] at hc
      exact hc

lemma mem_of_mem_trimZeros {l : List Char} {c : Char} (h : c ∈ trimZeros l) :
    c ∈ l := by
  rw [trimZeros, List.mem_reverse] at h
  have := mem_of_mem_dropWhile h
  rwa [List.mem_reverse] at this

lemma trimZeros_decomp (l : List Char) :
    ∃ k, l = trimZeros l ++ List.replicate k '0' := by
  refine ⟨(l.reverse.takeWhile (fun c => c = '0')).length, ?_⟩
  have h1 : l.reverse.takeWhile (fun c => c = '0') ++
      l.reverse.dropWhile (fun c => c = '0') = l.reverse :=
    List.takeWhile_append_dropWhile _ _
  have h2 : l.reverse.takeWhile (fun c => c = '0') =
      List.replicate (l.reverse.takeWhile (fun c => c = '0')).length '0' := by
    apply List.eq_replicate_of_mem
    intro b hb
    have := List.mem_takeWhile_imp hb
    simpa using this
  have h3 : (l.reverse.takeWhile (fun c => c = '0')).reverse =
      List.replicate (l.reverse.takeWhile (fun c => c = '0')).length '0' := by
    conv_lhs => rw [h2]
    rw [List.reverse_replicate]
  calc l = l.reverse.reverse := (List.reverse_reverse l).symm
    _ = (l.reverse.takeWhile (fun c => c = '0') ++
          l.reverse.dropWhile (fun c => c = '0')).reverse := by rw [h1]
    _ = trimZeros l ++ (l.reverse.takeWhile (fun c => c = '0')).reverse := by
          rw [List.reverse_append]; rfl
    _ = _ := by rw [h3]

lemma digitsVal_append_zeros (l : List Char) (k : Nat) :
    digitsVal (l ++ List.replicate k '0') = digitsVal l * 10 ^ k := by
  induction k with
  | zero => simp
  | succ k ih =>
    rw [List.replicate_succ', ← List.append_assoc]
    have : digitsVal ((l ++ List.replicate k '0') ++ ['0']) =
        10 * digitsVal (l ++ List.replicate k '0') := by
      simp [digitsVal, List.foldl_append]
    rw [this, ih]
    ring

lemma digitsVal_pad9 (ns : Nat) (h : ns < 1000000000) :
    digitsVal (pad9 ns) = ns := by
  simp only [pad9, digitsVal, List.foldl_cons, List.foldl_nil,
    toNat_digitChar (show ns / 100000000 % 10 ≤ 9 by omega),
    toNat_digitChar (show ns / 10000000 % 10 ≤ 9 by omega),
    toNat_digitChar (show ns / 1000000 % 10 ≤ 9 by omega),
    toNat_digitChar (show ns / 100000 % 10 ≤ 9 by omega),
    toNat_digitChar (show ns / 10000 % 10 ≤ 9 by omega),
    toNat_digitChar (show ns / 1000 % 10 ≤ 9 by omega),
    toNat_digitChar (show ns / 100 % 10 ≤ 9 by omega),
    toNat_digitChar (show ns / 10 % 10 ≤ 9 by omega),
    toNat_digitChar (show ns % 10 ≤ 9 by omega)]
  omega

lemma length_pad9 (ns : Nat) : (pad9 ns).length = 9 := by simp [pad9]

lemma pad9_all_digits (ns : Nat) : ∀ c ∈ pad9 ns, isDigitCh c = true := by
  intro c hc
  simp only [pad9, List.mem_cons, List.not_mem_nil, or_false] at hc
  rcases hc with h | h | h | h | h | h | h | h | h <;>
    (subst h; exact isDigitCh_digitChar (by omega))

lemma trimZeros_value (ns : Nat) (h : ns < 1000000000) :
    digitsVal (trimZeros (pad9 ns)) *
      10 ^ (9 - (trimZeros (pad9 ns)).length) = ns ∧
    (trimZeros (pad9 ns)).length ≤ 9 ∧ (ns ≠ 0 → trimZeros (pad9 ns) ≠ []) := by
  obtain ⟨k, hk⟩ := trimZeros_decomp (pad9 ns)
  have hlen : (pad9 ns).length = 9 := length_pad9 ns
  have hlen2 : (trimZeros (pad9 ns)).length + k = 9 := by
    rw [hk] at hlen
    simpa using hlen
  have hval : digitsVal (trimZeros (pad9 ns)) * 10 ^ k = ns := by
    rw [← digitsVal_append_zeros, ← hk, digitsVal_pad9 ns h]
  refine ⟨?_, by omega, ?_⟩
  · have : 9 - (trimZeros (pad9 ns)).length = k := by omega
    rw [this, hval]
  · intro hns hnil
    rw [hnil] at hval
    simp [digitsVal] at hval
    omega

lemma takeWhile_all_append {p : Char → Bool} :
    ∀ (l₁ l₂ : List Char), (∀ c ∈ l₁, p c = true) → l₂.takeWhile p = [] →
      (l₁ ++ l₂).takeWhile p = l₁ ∧ (l₁ ++ l₂).dropWhile p = l₂ := by
  intro l₁
  induction l₁ with
  | nil =>
    intro l₂ _ ht
    refine ⟨by simpa using ht, ?_⟩
    cases l₂ with
    | nil => simp
    | cons c t =>
      rw [List.takeWhile] at ht
      by_cases hp : p c
      · simp [hp] at ht
      · simp only [Bool.not_eq_true] at hp
        simp [List.dropWhile, hp]
  | cons a t ih =>
    intro l₂ hall ht
    have ha : p a = true := hall a (by simp)
    have := ih l₂ (fun c hc => hall c (by simp [hc])) ht
    constructor
    · rw [List.cons_append, List.takeWhile_cons_of_pos ha, this.1]
    · rw [List.cons_append, List.dropWhile_cons_of_pos ha, this.2]

lemma takeWhile_offsetChars (off : Int) :
    (offsetChars off).takeWhile isDigitCh = [] := by
  rw [offsetChars]
  by_cases h0 : off = 0
  · rw [if_pos h0]
    decide
  · rw [if_neg h0]
    by_cases hneg : off < 0
    · rw [if_pos hneg]
      rfl
    · rw [if_neg hneg]
      rfl

lemma parseFrac_subsec (ns : Nat) (off : Int) (h : ns < 1000000000) :
    parseFrac (subsecChars ns ++ offsetChars off) = some (ns, offsetChars off) := by
  by_cases hns : ns = 0
  · subst hns
    rw [subsecChars, if_pos rfl, List.nil_append, offsetChars]
    by_cases h0 : off = 0
    · rw [if_pos h0]
      rfl
    · rw [if_neg h0]
      by_cases hneg : off < 0
      · rw [if_pos hneg]
        rfl
      · rw [if_neg hneg]
        rfl
  · obtain ⟨hval, hle, hne⟩ := trimZeros_value ns h
    have htw := takeWhile_all_append (trimZeros (pad9 ns)) (offsetChars off)
      (fun c hc => pad9_all_digits ns c (mem_of_mem_trimZeros hc))
      (takeWhile_offsetChars off)
    rw [subsecChars, if_neg hns, List.cons_append, parseFrac]
    simp only [htw.1, htw.2]
    rw [if_neg]
    · rw [hval]
    · push_neg
      refine ⟨?_, by omega⟩
      intro hlen0
      exact hne hns (List.eq_nil_of_length_eq_zero hlen0)

lemma parseOffNumTail_colon (m : Nat) (h : m < 100) :
    parseOffNumTail (':' :: pad2 m) = some (m, []) := by
  rw [parseOffNumTail]
  simp [expectChar_cons, parse2_pad2_nil m h]

lemma parseOffNum_pads (sign : Int) (h m : Nat) (hh : h ≤ 25) (hm : m ≤ 59) :
    parseOffNum sign (pad2 h ++ ':' :: pad2 m) =
      some (sign * (3600 * h + 60 * m), []) := by
  rw [parseOffNum]
  simp [parse2_pad2 h _ (by omega), parseOffNumTail_colon m (by omega), hh, hm]

lemma parseOffset_offsetChars (off : Int) (h60 : off % 60 = 0)
    (hb : off.natAbs ≤ 93599) :
    parseOffset (offsetChars off) = some (off, []) := by
  by_cases h0 : off = 0
  · subst h0
    rfl
  · rw [offsetChars, if_neg h0]
    have hh : off.natAbs / 3600 ≤ 25 := by omega
    have hm : off.natAbs % 3600 / 60 ≤ 59 := by omega
    by_cases hneg : off < 0
    · rw [if_pos hneg]
      show parseOffNum (-1) _ = _
      rw [parseOffNum_pads (-1) _ _ hh hm]
      congr 2
      omega
    · rw [if_neg hneg]
      show parseOffNum 1 _ = _
      rw [parseOffNum_pads 1 _ _ hh hm]
      congr 2
      omega

lemma daysInMonth_le (y : Int) (m : Nat) : daysInMonth y m ≤ 31 := by
  rw [daysInMonth]
  split_ifs <;> omega

lemma parseDate_pads (y mo d : Nat) (rest : List Char) (hy : y < 10000)
    (hmo : mo < 100) (hd : d < 100) :
    parseDate (pad4 y ++ '-' :: (pad2 mo ++ '-' :: (pad2 d ++ rest))) =
      some (y, mo, d, rest) := by
  rw [parseDate]
  simp [parse4_pad4 y _ hy, expectChar_cons, parse2_pad2 mo _ hmo,
    parse2_pad2 d _ hd]

lemma parseTime_pads (h mi s : Nat) (rest : List Char) (hh : h < 100)
    (hmi : mi < 100) (hs : s < 100) :
    parseTime (pad2 h ++ ':' :: (pad2 mi ++ ':' :: (pad2 s ++ rest))) =
      some (h, mi, s, rest) := by
  rw [parseTime]
  simp [parse2_pad2 h _ hh, expectChar_cons, parse2_pad2 mi _ hmi,
    parse2_pad2 s _ hs]

/-- Round-trip of the RFC3339 serialization: a valid timestamp that the
formatter accepts is parsed back exactly, nanoseconds included. -/
theorem parse_format_rfc3339 (t : Timestamp) (hv : t.Valid) (hy0 : 0 ≤ t.year)
    (hy1 : t.year < 10000) (h60 : t.offset % 60 = 0) :
    ∃ l, formatRfc3339 t = some l ∧ parseRfc3339 l = some t := by
  obtain ⟨hm1, hm2, hd1, hd2, hh, hmi, hs, hns, hob⟩ := hv
  refine ⟨_, by rw [formatRfc3339, if_pos ⟨hy0, hy1, h60⟩], ?_⟩
  have hyt : (t.year.toNat : Int) = t.year := Int.toNat_of_nonneg hy0
  have hd31 : t.day ≤ 31 := le_trans hd2 (daysInMonth_le t.year t.month)
  have hdate := parseDate_pads t.year.toNat t.month t.day
    ('T' :: (pad2 t.hour ++ ':' :: (pad2 t.minute ++ ':' :: (pad2 t.second ++
      (subsecChars t.nanosecond ++ offsetChars t.offset)))))
    (by omega) (by omega) (by omega)
  have htime := parseTime_pads t.hour t.minute t.second
    (subsecChars t.nanosecond ++ offsetChars t.offset)
    (by omega) (by omega) (by omega)
  have hfrac := parseFrac_subsec t.nanosecond t.offset (by omega)
  have hoff := parseOffset_offsetChars t.offset h60 (by omega)
  rw [parseRfc3339]
  rw [hdate]
  have hcomp : componentsOk t.year.toNat t.month t.day t.hour t.minute
      t.second := by
    unfold componentsOk
    rw [hyt]
    exact ⟨hm1, hm2, hd1, hd2, hh, hmi, hs⟩
  simp [expectSep_T, htime, hfrac, hoff, hcomp, hyt]

/-- The in-memory snippet collection: model of the
`HashMap<String, Snippet>` the program loads, mutates and saves
(src/main.rs:46-47), as an association list whose keys are unique. -/
abbrev Collection := List (String × Snippet)

/-- Model of `HashMap::insert` (src/main.rs:124 and :195): replace the value
in place when the key is present, otherwise add the pair. -/
def insertA (n : String) (v : Snippet) : Collection → Collection
  | [] => [(n, v)]
  | (k, w) :: rest => if k = n then (n, v) :: rest else (k, w) :: insertA n v rest

/-- Model of `HashMap::get` (src/main.rs:203). -/
def lookupA (n : String) : Collection → Option Snippet
  | [] => none
  | (k, w) :: rest => if k = n then some w else lookupA n rest

/-- Model of `HashMap::remove` (src/main.rs:213): drop the entry of the key
when present. -/
def eraseA (n : String) : Collection → Collection
  | [] => []
  | (k, w) :: rest => if k = n then rest else (k, w) :: eraseA n rest

/-- Key uniqueness, the invariant every `HashMap` value satisfies. -/
def NodupKeys (c : Collection) : Prop := (c.map Prod.fst).Nodup

instance (c : Collection) : Decidable (NodupKeys c) := by
  unfold NodupKeys; infer_instance

lemma lookupA_insertA_self (n : String) (v : Snippet) :
    ∀ c : Collection, lookupA n (insertA n v c) = some v := by
  intro c
  induction c with
  | nil => simp [insertA, lookupA]
  | cons p rest ih =>
    obtain ⟨k, w⟩ := p
    by_cases hk : k = n
    · simp [insertA, hk, lookupA]
    · simp [insertA, hk, lookupA, ih]

lemma lookupA_insertA_ne (n k : String) (v : Snippet) (hk : k ≠ n) :
    ∀ c : Collection, lookupA k (insertA n v c) = lookupA k c := by
  intro c
  induction c with
  | nil => simp [insertA, lookupA, Ne.symm hk]
  | cons p rest ih =>
    obtain ⟨k₀, w⟩ := p
    by_cases h0 : k₀ = n
    · subst h0
      simp [insertA, lookupA, Ne.symm hk]
    · by_cases h1 : k₀ = k
      · subst h1
        simp [insertA, h0, lookupA]
      · simp [insertA, h0, lookupA, h1, ih]

lemma length_insertA_of_mem (n : String) (v : Snippet) :
    ∀ c : Collection, lookupA n c ≠ none →
      (insertA n v c).length = c.length := by
  intro c
  induction c with
  | nil => intro h; simp [lookupA] at h
  | cons p rest ih =>
    obtain ⟨k, w⟩ := p
    intro h
    by_cases hk : k = n
    · simp [insertA, hk]
    · rw [lookupA, if_neg hk] at h
      simp [insertA, hk, ih h]

lemma lookupA_eq_none_iff (n : String) :
    ∀ c : Collection, lookupA n c = none ↔ n ∉ c.map Prod.fst := by
  intro c
  induction c with
  | nil => simp [lookupA]
  | cons p rest ih =>
    obtain ⟨k, w⟩ := p
    by_cases hk : k = n
    · subst hk
      simp [lookupA]
    · simp [lookupA, hk, ih, Ne.symm hk]

lemma insertA_of_not_mem (n : String) (v : Snippet) :
    ∀ c : Collection, lookupA n c = none → insertA n v c = c ++ [(n, v)] := by
  intro c
  induction c with
  | nil => intro _; rfl
  | cons p rest ih =>
    obtain ⟨k, w⟩ := p
    intro h
    by_cases hk : k = n
    · rw [lookupA, if_pos hk] at h
      exact absurd h (by simp)
    · rw [lookupA, if_neg hk] at h
      simp [insertA, hk, ih h]

lemma lookupA_eraseA_self (n : String) :
    ∀ c : Collection, NodupKeys c → lookupA n (eraseA n c) = none := by
  intro c
  induction c with
  | nil => intro _; rfl
  | cons p rest ih =>
    obtain ⟨k, w⟩ := p
    intro hnd
    rw [NodupKeys, List.map_cons, List.nodup_cons] at hnd
    by_cases hk : k = n
    · subst hk
      rw [eraseA, if_pos rfl, (lookupA_eq_none_iff k rest).mpr hnd.1]
    · rw [eraseA, if_neg hk, lookupA, if_neg hk]
      exact ih hnd.2

lemma lookupA_eraseA_ne (n k : String) (hk : k ≠ n) :
    ∀ c : Collection, lookupA k (eraseA n c) = lookupA k c := by
  intro c
  induction c with
  | nil => rfl
  | cons p rest ih =>
    obtain ⟨k₀, w⟩ := p
    by_cases h0 : k₀ = n
    · subst h0
      simp [eraseA, lookupA, Ne.symm hk]
    · by_cases h1 : k₀ = k
      · subst h1
        simp [eraseA, h0, lookupA]
      · simp [eraseA, h0, lookupA, h1, ih]

lemma length_eraseA_of_mem (n : String) :
    ∀ c : Collection, lookupA n c ≠ none →
      (eraseA n c).length + 1 = c.length := by
  intro c
  induction c with
  | nil => intro h; simp [lookupA] at h
  | cons p rest ih =>
    obtain ⟨k, w⟩ := p
    intro h
    by_cases hk : k = n
    · simp [eraseA, hk]
    · rw [lookupA, if_neg hk] at h
      simp [eraseA, hk, ih h]

lemma eraseA_ne_of_mem (n : String) (c : Collection)
    (h : lookupA n c ≠ none) : eraseA n c ≠ c := by
  intro heq
  have := length_eraseA_of_mem n c h
  rw [heq] at this
  omega

/-- A timestamp the RFC3339 serialization can represent: a valid
`OffsetDateTime` whose year fits in four digits and whose offset has no
whole-second component. -/
def GoodTimestamp (t : Timestamp) : Prop :=
  t.Valid ∧ 0 ≤ t.year ∧ t.year < 10000 ∧ t.offset % 60 = 0

instance (t : Timestamp) : Decidable (GoodTimestamp t) := by
  unfold GoodTimestamp; infer_instance

/-- Outcome of a load call: a collection, an error return propagated with
`?` (the StorageReadError of the spec), or a process abort caused by a
panicking `.unwrap()`. -/
inductive LoadOutcome (α : Type) where
  | ok (a : α)
  | failure
  | panicked
deriving DecidableEq, Repr

/-- One row of the snippets table: name, content, created_at text
(src/main.rs:96-100). -/
abbrev SqliteRow := String × String × String

/-- Row loop of `SqliteStorage::load` (src/main.rs:111-125): parse each
created_at string — the `.unwrap()` at src/main.rs:116 turns a parse
failure into a panic, not an `Err` — and build the map by insertion. -/
def sqliteLoadAux : List SqliteRow → Collection → LoadOutcome Collection
  | [], acc => .ok acc
  | (n, c, ts) :: rest, acc =>
    match parseRfc3339 ts.data with
    | none => .panicked
    | some t => sqliteLoadAux rest (insertA n ⟨c, t⟩ acc)

/-- Embeds `SqliteStorage::load` (src/main.rs:109-128). -/
def sqliteLoad (rows : List SqliteRow) : LoadOutcome Collection :=
  sqliteLoadAux rows []

/-- Insert loop of `SqliteStorage::save` (src/main.rs:133-142): serialize
each timestamp (a format failure is propagated as an error by `?`) and
insert the row, the primary key rejecting a duplicate name. -/
def sqliteInsertAll : Collection → List SqliteRow → Option (List SqliteRow)
  | [], acc => some acc
  | (n, s) :: rest, acc =>
    match formatRfc3339 s.created_at with
    | none => none
    | some l =>
      if n ∈ acc.map Prod.fst then none
      else sqliteInsertAll rest (acc ++ [(n, s.content, String.mk l)])

/-- Embeds `SqliteStorage::save` (src/main.rs:130-145): `DELETE FROM
snippets` discards every prior row, then the given collection is inserted
row by row. -/
def sqliteSave (priorRows : List SqliteRow) (data : Collection) :
    Option (List SqliteRow) :=
  sqliteInsertAll data []

/-- JSON value, as far as the persisted format needs: strings and objects. -/
inductive Json where
  | str (s : String)
  | obj (fields : List (String × Json))

/-- Modelled from the spec: the serde serialization of one Snippet (the
derive at src/main.rs:39; the timestamp representation is fixed by crate
feature configuration outside src/, which the spec states to be an RFC3339
string): an object with the content string and the created_at text. -/
def encodeSnippet (s : Snippet) : Option Json :=
  (formatRfc3339 s.created_at).map fun l =>
    .obj [("content", .str s.content), ("created_at", .str (String.mk l))]

/-- Serialize every entry of the collection in order. -/
def encodeEntries : Collection → Option (List (String × Json))
  | [] => some []
  | (n, s) :: rest =>
    match encodeSnippet s, encodeEntries rest with
    | some j, some js => some ((n, j) :: js)
    | _, _ => none

/-- Modelled from the spec: `serde_json::to_writer_pretty` of the map
(src/main.rs:79) — an object mapping each name to its serialized Snippet. -/
def encodeCollection (c : Collection) : Option Json :=
  (encodeEntries c).map .obj

/-- Modelled from the spec: deserialization of one Snippet — the content
string and an RFC3339 created_at text, whose parse failure fails the whole
deserialization. -/
def decodeSnippet : Json → Option Snippet
  | .obj [("content", .str c), ("created_at", .str ts)] =>
    (parseRfc3339 ts.data).map fun t => ⟨c, t⟩
  | _ => none

/-- Deserialize the field list of the top-level object. -/
def decodeEntries : List (String × Json) → Option Collection
  | [] => some []
  | (n, j) :: rest =>
    match decodeSnippet j, decodeEntries rest with
    | some s, some c => some ((n, s) :: c)
    | _, _ => none

/-- Modelled from the spec: `serde_json::from_reader` into a
name-to-Snippet map (src/main.rs:69): the value must be an object, every
field must deserialize, and the map is built by insertion (a repeated name
keeps the last value). -/
def decodeCollection : Json → Option Collection
  | .obj fields =>
    (decodeEntries fields).map fun entries =>
      entries.foldl (fun a p => insertA p.1 p.2 a) []
  | _ => none

/-- State of the JSON backing file: missing (the first-run case), present
but unopenable, or present with a JSON value. -/
inductive JsonFile where
  | absent
  | openFailure
  | stored (j : Json)

/-- Embeds `JsonStorage::load` (src/main.rs:61-73): a missing file is an
empty collection, an open failure or a parse failure is an error return. -/
def jsonLoad : JsonFile → LoadOutcome Collection
  | .absent => .ok []
  | .openFailure => .failure
  | .stored j =>
    match decodeCollection j with
    | some c => .ok c
    | none => .failure

/-- Embeds `JsonStorage::save` (src/main.rs:75-83): `File::create`
truncates, so the new file holds exactly the serialized collection,
whatever was stored before. -/
def jsonSave (prior : JsonFile) (data : Collection) : Option JsonFile :=
  (encodeCollection data).map .stored

/-- Parsed CLI arguments (src/main.rs:17-37): the three intent flags and
the optional download URL, each an optional value with no parser-level
conflict rule. -/
structure CmdArgs where
  name : Option String
  read : Option String
  delete : Option String
  download : Option String
deriving DecidableEq, Repr

/-- Result of one dispatcher run: the lines printed to standard output plus
the collection passed to `save` when save is called, or a fatal error
return from `main`. -/
inductive DispatchResult where
  | ok (out : List String) (savedMap : Option Collection)
  | failed
deriving DecidableEq, Repr

/-- The usage text printed when no intent flag is supplied
(src/main.rs:222-225). -/
def usageLines : List String :=
  ["Usage:", "  --name <name> [--download URL]", "  --read <name>",
   "  --delete <name>"]

/-- Create branch of `main` (src/main.rs:180-200): build a snippet from the
obtained content and the current clock, insert it under the name, and save
the updated collection. -/
def createRun (n content : String) (clock : Timestamp) (map : Collection) :
    DispatchResult :=
  .ok ["Snippet saved."] (some (insertA n ⟨content, clock⟩ map))

/-- Read branch of `main` (src/main.rs:202-210): look the name up in the
loaded collection and print timestamp and content, or a not-found line;
no save happens. The `?` on the timestamp format (src/main.rs:204) makes a
format failure a fatal error. -/
def readRun (n : String) (map : Collection) : DispatchResult :=
  match lookupA n map with
  | some sn =>
    match formatRfc3339 sn.created_at with
    | some l => .ok ["Created at: " ++ String.mk l, sn.content] none
    | none => .failed
  | none => .ok ["Snippet not found."] none

/-- Delete branch of `main` (src/main.rs:212-220): remove the name when
present and save; report not-found without saving otherwise. -/
def deleteRun (n : String) (map : Collection) : DispatchResult :=
  match lookupA n map with
  | some _ => .ok ["Snippet deleted."] (some (eraseA n map))
  | none => .ok ["Snippet not found."] none

/-- Embeds the dispatch in `main` (src/main.rs:180-227) after the collection
has been loaded: the create branch runs when `--name` is given, otherwise
the read branch when `--read` is given, otherwise the delete branch when
`--delete` is given, otherwise the usage text. `content` is the snippet
text obtained from the download or from standard input, and `clock` is the
`OffsetDateTime::now_utc()` value. -/
def dispatch (args : CmdArgs) (content : String) (clock : Timestamp)
    (map : Collection) : DispatchResult :=
  match args.name with
  | some n => createRun n content clock map
  | none =>
    match args.read with
    | some n => readRun n map
    | none =>
      match args.delete with
      | some n => deleteRun n map
      | none => .ok usageLines none

/-- Persisted state after a dispatcher run against a backend with save
function `save`: unchanged unless the dispatcher called save. -/
def storeAfter {σ : Type} (save : σ → Collection → σ) (st : σ) :
    DispatchResult → σ
  | .failed => st
  | .ok _ none => st
  | .ok _ (some m) => save st m

/-- Model of `str::split_once` (src/main.rs:163): split at the first
occurrence of the separator, or fail when the separator is absent. -/
def splitOnce (sep : Char) : List Char → Option (List Char × List Char)
  | [] => none
  | c :: cs =>
    if c = sep then some ([], cs)
    else (splitOnce sep cs).map fun p => (c :: p.1, p.2)

/-- The backend selected by `init_storage`: which variant is constructed
and with which location string. -/
inductive StorageChoice where
  | json (path : String)
  | sqlite (path : String)
deriving DecidableEq, Repr

/-- The two configuration failures of `init_storage`, both surfaced as the
ConfigurationError of the spec. -/
inductive ConfigError where
  | missingSeparator
  | unknownProvider
deriving DecidableEq, Repr

/-- Embeds `init_storage` (src/main.rs:158-171) applied to the value of the
storage environment variable: split on the first colon, then match the kind
tag. -/
def init_storage (config : String) : Except ConfigError StorageChoice :=
  match splitOnce ':' config.data with
  | none => .error .missingSeparator
  | some p =>
    if String.mk p.1 = "JSON" then .ok (.json (String.mk p.2))
    else if String.mk p.1 = "SQLITE" then .ok (.sqlite (String.mk p.2))
    else .error .unknownProvider

lemma lookupA_append_none (k : String) :
    ∀ a b : Collection, lookupA k a = none → lookupA k (a ++ b) = lookupA k b := by
  intro a
  induction a with
  | nil => intro b _; rfl
  | cons p rest ih =>
    obtain ⟨k₀, w⟩ := p
    intro b h
    by_cases h0 : k₀ = k
    · rw [lookupA, if_pos h0] at h
      exact absurd h (by simp)
    · rw [lookupA, if_neg h0] at h
      rw [List.cons_append, lookupA, if_neg h0]
      exact ih b h

lemma foldl_insertA :
    ∀ (c : Collection) (acc : Collection), NodupKeys c →
      (∀ p ∈ c, lookupA p.1 acc = none) →
      c.foldl (fun a p => insertA p.1 p.2 a) acc = acc ++ c := by
  intro c
  induction c with
  | nil => intro acc _ _; simp
  | cons q rest ih =>
    obtain ⟨n, v⟩ := q
    intro acc hnd hdis
    have hn : lookupA n acc = none := hdis (n, v) (by simp)
    rw [NodupKeys, List.map_cons, List.nodup_cons] at hnd
    rw [List.foldl_cons]
    have hstep : insertA n v acc = acc ++ [(n, v)] := insertA_of_not_mem n v acc hn
    rw [hstep, ih (acc ++ [(n, v)]) hnd.2 ?_]
    · simp
    · intro p hp
      have h1 : lookupA p.1 acc = none := hdis p (by simp [hp])
      have h2 : p.1 ≠ n := by
        intro heq
        have hmm : p.1 ∈ List.map Prod.fst rest := List.mem_map_of_mem Prod.fst hp
        rw [heq] at hmm
        exact hnd.1 hmm
      rw [lookupA_append_none p.1 acc _ h1, lookupA, if_neg (Ne.symm h2), lookupA]

/-- A table row representing one collection entry: same name, same content,
and a created_at text produced by the formatter and recovered by the
parser. -/
def RowMatches (p : String × Snippet) (r : SqliteRow) : Prop :=
  r.1 = p.1 ∧ r.2.1 = p.2.content ∧
  formatRfc3339 p.2.created_at = some r.2.2.data ∧
  parseRfc3339 r.2.2.data = some p.2.created_at

lemma sqliteInsertAll_ok :
    ∀ (data : Collection) (acc : List SqliteRow), NodupKeys data →
      (∀ p ∈ data, GoodTimestamp p.2.created_at) →
      (∀ p ∈ data, p.1 ∉ acc.map Prod.fst) →
      ∃ rows, sqliteInsertAll data acc = some (acc ++ rows) ∧
        List.Forall₂ RowMatches data rows := by
  intro data
  induction data with
  | nil => intro acc _ _ _; exact ⟨[], by simp [sqliteInsertAll], List.Forall₂.nil⟩
  | cons q rest ih =>
    obtain ⟨n, s⟩ := q
    intro acc hnd hg hdis
    obtain ⟨hv, hy0, hy1, h60⟩ := hg (n, s) (by simp)
    obtain ⟨l, hfmt, hparse⟩ := parse_format_rfc3339 s.created_at hv hy0 hy1 h60
    rw [NodupKeys, List.map_cons, List.nodup_cons] at hnd
    have hmem : n ∉ acc.map Prod.fst := hdis (n, s) (by simp)
    have hdis2 : ∀ p ∈ rest,
        p.1 ∉ (acc ++ [(n, s.content, String.mk l)]).map Prod.fst := by
      intro p hp
      rw [List.map_append]
      simp only [List.mem_append, not_or]
      refine ⟨hdis p (by simp [hp]), ?_⟩
      have h2 : p.1 ≠ n := by
        intro heq
        have hmm : p.1 ∈ List.map Prod.fst rest := List.mem_map_of_mem Prod.fst hp
        rw [heq] at hmm
        exact hnd.1 hmm
      simp [h2]
    obtain ⟨rows, hrec, hrel⟩ := ih (acc ++ [(n, s.content, String.mk l)])
      hnd.2 (fun p hp => hg p (by simp [hp])) hdis2
    refine ⟨(n, s.content, String.mk l) :: rows, ?_, ?_⟩
    · rw [sqliteInsertAll, hfmt]
      show (if n ∈ acc.map Prod.fst then none
        else sqliteInsertAll rest (acc ++ [(n, s.content, String.mk l)])) =
        some (acc ++ (n, s.content, String.mk l) :: rows)
      rw [if_neg hmem, hrec]
      simp
    · exact List.Forall₂.cons ⟨rfl, rfl, hfmt, hparse⟩ hrel

lemma sqliteLoadAux_matches :
    ∀ (data : Collection) (rows : List SqliteRow),
      List.Forall₂ RowMatches data rows → ∀ acc : Collection,
      sqliteLoadAux rows acc =
        .ok (data.foldl (fun a p => insertA p.1 p.2 a) acc) := by
  intro data rows hrel
  induction hrel with
  | nil => intro acc; rfl
  | cons hq hrest ih =>
    rename_i p r data' rows'
    intro acc
    obtain ⟨n, s⟩ := p
    obtain ⟨rn, rc, rt⟩ := r
    obtain ⟨h1, h2, h3, h4⟩ := hq
    simp only at h1 h2 h4
    subst h1
    subst h2
    rw [sqliteLoadAux, h4, List.foldl_cons]
    exact ih (insertA rn s acc)

/-- A serialized field representing one collection entry: same name, and a
value that deserializes back to the same snippet. -/
def EntryMatches (p : String × Snippet) (e : String × Json) : Prop :=
  e.1 = p.1 ∧ decodeSnippet e.2 = some p.2

/-- A serialized field as produced from one collection entry: same name,
value the serialization of the snippet. -/
def EntryReflects (p : String × Snippet) (e : String × Json) : Prop :=
  e.1 = p.1 ∧ encodeSnippet p.2 = some e.2

lemma encodeEntries_ok :
    ∀ data : Collection, (∀ p ∈ data, GoodTimestamp p.2.created_at) →
      ∃ es, encodeEntries data = some es ∧
        List.Forall₂ EntryMatches data es := by
  intro data
  induction data with
  | nil => intro _; exact ⟨[], rfl, List.Forall₂.nil⟩
  | cons q rest ih =>
    obtain ⟨n, s⟩ := q
    intro hg
    obtain ⟨hv, hy0, hy1, h60⟩ := hg (n, s) (by simp)
    obtain ⟨l, hfmt, hparse⟩ := parse_format_rfc3339 s.created_at hv hy0 hy1 h60
    obtain ⟨es, hes, hrel⟩ := ih (fun p hp => hg p (by simp [hp]))
    have henc : encodeSnippet s =
        some (.obj [("content", .str s.content),
                    ("created_at", .str (String.mk l))]) := by
      rw [encodeSnippet, hfmt]
      rfl
    refine ⟨(n, .obj [("content", .str s.content),
                      ("created_at", .str (String.mk l))]) :: es, ?_, ?_⟩
    · rw [encodeEntries, henc, hes]
    · refine List.Forall₂.cons ⟨rfl, ?_⟩ hrel
      show (parseRfc3339 (String.mk l).data).map
        (fun t => (⟨s.content, t⟩ : Snippet)) = some (n, s).2
      rw [show (String.mk l).data = l from rfl, hparse]
      rfl

lemma decodeEntries_matches :
    ∀ (data : Collection) (es : List (String × Json)),
      List.Forall₂ EntryMatches data es → decodeEntries es = some data := by
  intro data es hrel
  induction hrel with
  | nil => rfl
  | cons hq hrest ih =>
    rename_i p e data' es'
    obtain ⟨n, s⟩ := p
    obtain ⟨en, j⟩ := e
    obtain ⟨h1, h2⟩ := hq
    simp only at h1 h2
    subst h1
    rw [decodeEntries, h2, ih]

lemma json_roundtrip_core (data : Collection) (hnd : NodupKeys data)
    (hg : ∀ p ∈ data, GoodTimestamp p.2.created_at) :
    ∃ j, encodeCollection data = some j ∧ decodeCollection j = some data := by
  obtain ⟨es, hes, hrel⟩ := encodeEntries_ok data hg
  refine ⟨.obj es, ?_, ?_⟩
  · rw [encodeCollection, hes]
    rfl
  · rw [decodeCollection, decodeEntries_matches data es hrel]
    show some (data.foldl (fun a p => insertA p.1 p.2 a) []) = some data
    rw [foldl_insertA data [] hnd (fun p _ => rfl)]
    rfl

/-- A table row as produced from one collection entry: same name, same
content, created_at the formatted timestamp. -/
def RowReflects (p : String × Snippet) (r : SqliteRow) : Prop :=
  r.1 = p.1 ∧ r.2.1 = p.2.content ∧
  formatRfc3339 p.2.created_at = some r.2.2.data

lemma sqliteInsertAll_reflects :
    ∀ (data : Collection) (acc res : List SqliteRow),
      sqliteInsertAll data acc = some res →
      ∃ rows, res = acc ++ rows ∧ List.Forall₂ RowReflects data rows := by
  intro data
  induction data with
  | nil =>
    intro acc res h
    rw [sqliteInsertAll] at h
    have hacc : acc = res := by injection h
    subst hacc
    exact ⟨[], by simp, List.Forall₂.nil⟩
  | cons q rest ih =>
    obtain ⟨n, s⟩ := q
    intro acc res h
    rw [sqliteInsertAll] at h
    split at h
    · exact absurd h (by simp)
    · rename_i l hfmt
      split at h
      · exact absurd h (by simp)
      · obtain ⟨rows, hres, hrel⟩ := ih _ _ h
        refine ⟨(n, s.content, String.mk l) :: rows, ?_, ?_⟩
        · rw [hres]
          simp
        · exact List.Forall₂.cons ⟨rfl, rfl, by rw [hfmt]⟩ hrel

lemma encodeEntries_reflects :
    ∀ (data : Collection) (es : List (String × Json)),
      encodeEntries data = some es →
      List.Forall₂ EntryReflects data es := by
  intro data
  induction data with
  | nil =>
    intro es h
    rw [encodeEntries] at h
    cases h
    exact List.Forall₂.nil
  | cons q rest ih =>
    obtain ⟨n, s⟩ := q
    intro es h
    rw [encodeEntries] at h
    cases henc : encodeSnippet s with
    | none => rw [henc] at h; exact absurd h (by simp)
    | some j =>
      rw [henc] at h
      cases hrest : encodeEntries rest with
      | none => rw [hrest] at h; exact absurd h (by simp)
      | some js =>
        rw [hrest] at h
        simp only [Option.some.injEq] at h
        subst h
        exact List.Forall₂.cons ⟨rfl, henc⟩ (ih js hrest)

lemma splitOnce_not_mem (sep : Char) :
    ∀ l : List Char, sep ∉ l → splitOnce sep l = none := by
  intro l
  induction l with
  | nil => intro _; rfl
  | cons c cs ih =>
    intro h
    rw [List.mem_cons, not_or] at h
    rw [splitOnce, if_neg (Ne.symm h.1), ih h.2]
    rfl

lemma splitOnce_cons_append (sep : Char) :
    ∀ a : List Char, sep ∉ a → ∀ b : List Char,
      splitOnce sep (a ++ sep :: b) = some (a, b) := by
  intro a
  induction a with
  | nil => intro _ b; simp [splitOnce]
  | cons c cs ih =>
    intro h b
    rw [List.mem_cons, not_or] at h
    rw [List.cons_append, splitOnce, if_neg (Ne.symm h.1), ih h.2 b]
    rfl

/-- A concrete timestamp used to instantiate the general theorems. -/
def sampleTs : Timestamp := ⟨2024, 5, 17, 10, 30, 5, 250000000, 0⟩

/-- A concrete one-entry collection used to instantiate the general
theorems. -/
def sampleData : Collection := [("greeting", ⟨"hello world", sampleTs⟩)]

/-- C1: the spec states that when a row's created_at string is not valid
RFC3339, the SQLite load fails with a StorageReadError — an error result,
not a panic. The code contradicts this: the `.unwrap()` at src/main.rs:116
panics on the parse failure instead of returning an `Err`, so at a table
with a malformed timestamp the embedded load ends in the panic outcome and
not in the error outcome. -/
theorem c1_sqlite_load_parse_failure_panics :
    sqliteLoad [("a", "hello", "not-a-date")] = .panicked ∧
    sqliteLoad [("a", "hello", "not-a-date")] ≠ .failure := by
  constructor
  · rfl
  · decide

/-- C4: the file-backed load returns an empty collection when the file does
not exist; when the file exists but cannot be opened or its contents do not
deserialize into a name-to-Snippet mapping, it fails with a read error; a
deserializable file yields its collection. -/
theorem c4_json_load_cases (j : Json) (c : Collection) :
    jsonLoad .absent = .ok [] ∧
    jsonLoad .openFailure = .failure ∧
    (decodeCollection j = none → jsonLoad (.stored j) = .failure) ∧
    (decodeCollection j = some c → jsonLoad (.stored j) = .ok c) := by
  refine ⟨rfl, rfl, ?_, ?_⟩ <;> intro h <;> simp [jsonLoad, h]

/-- Witness for C4 at a non-object JSON value and the missing-file state. -/
theorem c4_json_load_cases_witness :
    jsonLoad (.stored (.str "bad")) = .failure ∧ jsonLoad .absent = .ok [] :=
  ⟨(c4_json_load_cases (.str "bad") []).2.2.1 rfl,
   (c4_json_load_cases (.str "bad") []).1⟩

/-- C10: the storage selector splits the configuration string at the first
colon only, so a location with further colons reaches the backend
unchanged, and an empty location after the separator is accepted and
constructs a backend. -/
theorem c10_selector_splits_first_colon :
    (∀ path : String, init_storage ("JSON:" ++ path) = .ok (.json path)) ∧
    (∀ path : String, init_storage ("SQLITE:" ++ path) = .ok (.sqlite path)) ∧
    init_storage "JSON:a:b" = .ok (.json "a:b") ∧
    init_storage "JSON:" = .ok (.json "") := by
  refine ⟨?_, ?_, rfl, rfl⟩ <;> (intro path; obtain ⟨pl⟩ := path; rfl)

/-- C5: for every configuration string, the selector fails with a
ConfigurationError and constructs no backend when the string has no colon
or when its kind tag is neither JSON nor SQLITE; on a well-formed string it
constructs the backend variant named by the kind tag. -/
theorem c5_selector_validation (s : String) :
    (':' ∉ s.data → init_storage s = .error .missingSeparator) ∧
    (∀ kind path : String, ':' ∉ kind.data → s = kind ++ ":" ++ path →
      (kind = "JSON" → init_storage s = .ok (.json path)) ∧
      (kind = "SQLITE" → init_storage s = .ok (.sqlite path)) ∧
      (kind ≠ "JSON" → kind ≠ "SQLITE" →
        init_storage s = .error .unknownProvider)) := by
  constructor
  · intro h
    rw [init_storage, splitOnce_not_mem ':' s.data h]
  · intro kind path hk hs
    subst hs
    obtain ⟨kl⟩ := kind
    obtain ⟨pl⟩ := path
    have hd : ((String.mk kl ++ ":" ++ String.mk pl) : String).data =
        kl ++ ':' :: pl := by
      show (kl ++ [':']) ++ pl = kl ++ ':' :: pl
      rw [List.append_assoc]
      rfl
    have hinit : init_storage (String.mk kl ++ ":" ++ String.mk pl) =
        if String.mk kl = "JSON" then .ok (.json (String.mk pl))
        else if String.mk kl = "SQLITE" then .ok (.sqlite (String.mk pl))
        else .error .unknownProvider := by
      rw [init_storage, hd, splitOnce_cons_append ':' kl hk pl]
    refine ⟨?_, ?_, ?_⟩
    · intro hj
      rw [hinit, if_pos hj]
    · intro hq
      rw [hinit]
      by_cases hj : String.mk kl = "JSON"
      · rw [hj] at hq
        exact absurd hq (by decide)
      · rw [if_neg hj, if_pos hq]
    · intro hj hq
      rw [hinit, if_neg hj, if_neg hq]

/-- Witness for C5 at a kind-tagged string, an unknown tag and a
separator-free string. -/
theorem c5_selector_validation_witness :
    init_storage "JSON:a:b" = .ok (.json "a:b") ∧
    init_storage "SQLITE:db" = .ok (.sqlite "db") ∧
    init_storage "FOO:x" = .error .unknownProvider ∧
    init_storage "nocolon" = .error .missingSeparator :=
  ⟨((c5_selector_validation "JSON:a:b").2 "JSON" "a:b"
      (by decide) rfl).1 rfl,
   ((c5_selector_validation "SQLITE:db").2 "SQLITE" "db"
      (by decide) rfl).2.1 rfl,
   ((c5_selector_validation "FOO:x").2 "FOO" "x"
      (by decide) rfl).2.2 (by decide) (by decide),
   (c5_selector_validation "nocolon").1 (by decide)⟩

/-- C2: for every collection whose timestamps the RFC3339 serialization can
represent, saving and then loading returns the collection exactly — same
keys, same content, same created_at — on both the SQLite backend and the
JSON backend, whatever was persisted before. -/
theorem c2_save_load_roundtrip (data : Collection) (hnd : NodupKeys data)
    (hg : ∀ p ∈ data, GoodTimestamp p.2.created_at) :
    (∀ db, ∃ rows, sqliteSave db data = some rows ∧
      sqliteLoad rows = .ok data) ∧
    (∀ f, ∃ f2, jsonSave f data = some f2 ∧ jsonLoad f2 = .ok data) := by
  constructor
  · intro db
    obtain ⟨rows, hsave, hrel⟩ := sqliteInsertAll_ok data [] hnd hg
      (fun p _ => by simp)
    refine ⟨rows, ?_, ?_⟩
    · rw [sqliteSave, hsave]
      rfl
    · rw [sqliteLoad, sqliteLoadAux_matches data rows hrel [],
        foldl_insertA data [] hnd (fun p _ => rfl)]
      rfl
  · intro f
    obtain ⟨j, henc, hdec⟩ := json_roundtrip_core data hnd hg
    refine ⟨.stored j, ?_, ?_⟩
    · rw [jsonSave, henc]
      rfl
    · simp [jsonLoad, hdec]

/-- Witness for C2 at a one-entry collection against a nonempty prior table
and an unopenable prior file. -/
theorem c2_save_load_roundtrip_witness :
    (∃ rows, sqliteSave [("x", "y", "z")] sampleData = some rows ∧
      sqliteLoad rows = .ok sampleData) ∧
    (∃ f2, jsonSave .openFailure sampleData = some f2 ∧
      jsonLoad f2 = .ok sampleData) :=
  ⟨(c2_save_load_roundtrip sampleData (by decide) (by decide)).1 _,
   (c2_save_load_roundtrip sampleData (by decide) (by decide)).2 _⟩

/-- C3: after every successful save, on either backend, the persisted
representation is exactly the image of the given collection — row by row
for SQLite, field by field for the JSON object — and it does not depend on
the previously persisted state at all, so no prior record survives. -/
theorem c3_save_exact_reflection (data : Collection) :
    (∀ db db2, sqliteSave db data = sqliteSave db2 data) ∧
    (∀ db rows, sqliteSave db data = some rows →
      List.Forall₂ RowReflects data rows) ∧
    (∀ f f2, jsonSave f data = jsonSave f2 data) ∧
    (∀ f j, jsonSave f data = some (.stored j) →
      ∃ es, j = .obj es ∧ List.Forall₂ EntryReflects data es) := by
  refine ⟨fun db db2 => rfl, ?_, fun f f2 => rfl, ?_⟩
  · intro db rows h
    rw [sqliteSave] at h
    obtain ⟨rows2, hr, hrel⟩ := sqliteInsertAll_reflects data [] rows h
    rw [hr]
    exact hrel
  · intro f j h
    rw [jsonSave, encodeCollection] at h
    cases hee : encodeEntries data with
    | none =>
      rw [hee] at h
      exact absurd h (by simp)
    | some es =>
      rw [hee] at h
      simp only [Option.map, Option.some.injEq] at h
      have hj : Json.obj es = j := by injection h
      exact ⟨es, hj.symm, encodeEntries_reflects data es hee⟩

/-- Witness for C3 at a one-entry collection against nonempty prior
states. -/
theorem c3_save_exact_reflection_witness :
    sqliteSave [("x", "y", "z")] sampleData =
      sqliteSave [] sampleData ∧
    List.Forall₂ RowReflects sampleData
      [("greeting", "hello world", "2024-05-17T10:30:05.25Z")] ∧
    (∃ es, Json.obj [("greeting", .obj [("content", .str "hello world"),
        ("created_at", .str "2024-05-17T10:30:05.25Z")])] = .obj es ∧
      List.Forall₂ EntryReflects sampleData es) :=
  ⟨(c3_save_exact_reflection sampleData).1 _ _,
   (c3_save_exact_reflection sampleData).2.1 [] _ rfl,
   (c3_save_exact_reflection sampleData).2.2.2 .absent _ rfl⟩

/-- C6: a delete command whose name is absent from the loaded collection
reports not-found, does not call save, and leaves the persisted store
unchanged; and whenever the dispatcher does call save, the command was a
create — whose insertion replaced or added the named entry — or a delete of
a present name, whose removal changed the collection. -/
theorem c6_delete_miss_no_save (args : CmdArgs) (content : String)
    (clock : Timestamp) (map : Collection) :
    (∀ n, args.name = none → args.read = none → args.delete = some n →
      lookupA n map = none →
        dispatch args content clock map = .ok ["Snippet not found."] none ∧
        ∀ (σ : Type) (save : σ → Collection → σ) (st : σ),
          storeAfter save st (dispatch args content clock map) = st) ∧
    (∀ out m, dispatch args content clock map = .ok out (some m) →
      (∃ n, args.name = some n ∧ m = insertA n ⟨content, clock⟩ map) ∨
      (∃ n, args.name = none ∧ args.read = none ∧ args.delete = some n ∧
        lookupA n map ≠ none ∧ m = eraseA n map ∧ m ≠ map)) := by
  constructor
  · intro n h1 h2 h3 h4
    have hdisp : dispatch args content clock map =
        .ok ["Snippet not found."] none := by
      simp only [dispatch, h1, h2, h3]
      unfold deleteRun
      rw [h4]
    exact ⟨hdisp, fun σ save st => by rw [hdisp, storeAfter]⟩
  · intro out m h
    cases hn : args.name with
    | some n =>
      left
      refine ⟨n, rfl, ?_⟩
      simp only [dispatch, hn] at h
      unfold createRun at h
      injection h with h1 h2
      injection h2 with h3
      exact h3.symm
    | none =>
      cases hr : args.read with
      | some n =>
        simp only [dispatch, hn, hr] at h
        unfold readRun at h
        split at h
        · split at h
          · injection h with h1 h2
            injection h2
          · injection h
        · injection h with h1 h2
          injection h2
      | none =>
        cases hd : args.delete with
        | some n =>
          simp only [dispatch, hn, hr, hd] at h
          unfold deleteRun at h
          split at h
          · rename_i sn hl
            right
            have hm : m = eraseA n map := by
              injection h with h1 h2
              injection h2 with h3
              exact h3.symm
            refine ⟨n, rfl, rfl, rfl, by rw [hl]; simp, hm, ?_⟩
            rw [hm]
            exact eraseA_ne_of_mem n map (by rw [hl]; simp)
          · injection h with h1 h2
            injection h2
        | none =>
          simp only [dispatch, hn, hr, hd] at h
          injection h with h1 h2
          injection h2

/-- Witness for C6: deleting a missing name from the sample collection
reports not-found and leaves a concrete SQLite table untouched. -/
theorem c6_delete_miss_no_save_witness :
    dispatch ⟨none, none, some "missing", none⟩ "c" sampleTs sampleData =
      .ok ["Snippet not found."] none ∧
    storeAfter (fun st _ => ("w", "w", "w") :: st)
      [("greeting", "g", "t")]
      (dispatch ⟨none, none, some "missing", none⟩ "c" sampleTs sampleData) =
      [("greeting", "g", "t")] :=
  ⟨((c6_delete_miss_no_save ⟨none, none, some "missing", none⟩ "c" sampleTs
      sampleData).1 "missing" rfl rfl rfl (by decide)).1,
   ((c6_delete_miss_no_save ⟨none, none, some "missing", none⟩ "c" sampleTs
      sampleData).1 "missing" rfl rfl rfl (by decide)).2 _ _ _⟩

/-- C7: a create command whose name already exists fully replaces the prior
snippet — the stored entry becomes the new content with the new timestamp —
the collection size does not increase, and every entry under another name
is unchanged. -/
theorem c7_create_overwrites (args : CmdArgs) (content : String)
    (clock : Timestamp) (map : Collection) (n : String)
    (hname : args.name = some n) (hmem : lookupA n map ≠ none) :
    dispatch args content clock map =
      .ok ["Snippet saved."] (some (insertA n ⟨content, clock⟩ map)) ∧
    lookupA n (insertA n ⟨content, clock⟩ map) = some ⟨content, clock⟩ ∧
    (insertA n ⟨content, clock⟩ map).length = map.length ∧
    ∀ k, k ≠ n → lookupA k (insertA n ⟨content, clock⟩ map) = lookupA k map := by
  refine ⟨?_, lookupA_insertA_self n ⟨content, clock⟩ map,
    length_insertA_of_mem n ⟨content, clock⟩ map hmem,
    fun k hk => lookupA_insertA_ne n k ⟨content, clock⟩ hk map⟩
  simp only [dispatch, hname]
  rfl

/-- Witness for C7: re-creating the sample name replaces its entry and
keeps the size at one. -/
theorem c7_create_overwrites_witness :
    dispatch ⟨some "greeting", none, none, none⟩ "new text"
        ⟨2025, 1, 2, 3, 4, 5, 0, 0⟩ sampleData =
      .ok ["Snippet saved."] (some (insertA "greeting"
        ⟨"new text", ⟨2025, 1, 2, 3, 4, 5, 0, 0⟩⟩ sampleData)) ∧
    lookupA "greeting" (insertA "greeting"
        ⟨"new text", ⟨2025, 1, 2, 3, 4, 5, 0, 0⟩⟩ sampleData) =
      some ⟨"new text", ⟨2025, 1, 2, 3, 4, 5, 0, 0⟩⟩ ∧
    (insertA "greeting" ⟨"new text", ⟨2025, 1, 2, 3, 4, 5, 0, 0⟩⟩
        sampleData).length = sampleData.length :=
  ⟨(c7_create_overwrites ⟨some "greeting", none, none, none⟩ "new text"
      ⟨2025, 1, 2, 3, 4, 5, 0, 0⟩ sampleData "greeting" rfl (by decide)).1,
   (c7_create_overwrites ⟨some "greeting", none, none, none⟩ "new text"
      ⟨2025, 1, 2, 3, 4, 5, 0, 0⟩ sampleData "greeting" rfl (by decide)).2.1,
   (c7_create_overwrites ⟨some "greeting", none, none, none⟩ "new text"
      ⟨2025, 1, 2, 3, 4, 5, 0, 0⟩ sampleData "greeting" rfl (by decide)).2.2.1⟩

/-- C8: a read command prints the creation timestamp in the fixed RFC3339
format followed by the content when the name is present; when the name is
absent it prints a not-found line and returns successfully; in both cases
no save is called and the persisted store is unchanged. -/
theorem c8_read_semantics (args : CmdArgs) (content : String)
    (clock : Timestamp) (map : Collection) (n : String)
    (hname : args.name = none) (hread : args.read = some n) :
    (∀ sn l, lookupA n map = some sn →
      formatRfc3339 sn.created_at = some l →
        dispatch args content clock map =
          .ok ["Created at: " ++ String.mk l, sn.content] none) ∧
    (lookupA n map = none →
      dispatch args content clock map = .ok ["Snippet not found."] none) ∧
    (∀ (σ : Type) (save : σ → Collection → σ) (st : σ),
      storeAfter save st (dispatch args content clock map) = st) := by
  have hdisp : dispatch args content clock map = readRun n map := by
    simp only [dispatch, hname, hread]
  refine ⟨?_, ?_, ?_⟩
  · intro sn l hl hf
    rw [hdisp]
    unfold readRun
    simp [hl, hf]
  · intro hl
    rw [hdisp]
    unfold readRun
    simp [hl]
  · intro σ save st
    rw [hdisp]
    unfold readRun
    cases hl : lookupA n map with
    | some sn =>
      cases hf : formatRfc3339 sn.created_at with
      | some l => simp [hl, hf, storeAfter]
      | none => simp [hl, hf, storeAfter]
    | none => simp [hl, storeAfter]

/-- Witness for C8: reading the sample name prints its RFC3339 timestamp
and content; reading a missing name reports not-found. -/
theorem c8_read_semantics_witness :
    dispatch ⟨none, some "greeting", none, none⟩ "c" sampleTs sampleData =
      .ok ["Created at: 2024-05-17T10:30:05.25Z", "hello world"] none ∧
    dispatch ⟨none, some "missing", none, none⟩ "c" sampleTs sampleData =
      .ok ["Snippet not found."] none :=
  ⟨(c8_read_semantics ⟨none, some "greeting", none, none⟩ "c" sampleTs
      sampleData "greeting" rfl rfl).1 ⟨"hello world", sampleTs⟩
      "2024-05-17T10:30:05.25Z".data rfl rfl,
   (c8_read_semantics ⟨none, some "missing", none, none⟩ "c" sampleTs
      sampleData "missing" rfl rfl).2.1 (by decide)⟩

/-- C9: every invocation executes at most one of the three intents — create
when the name flag is supplied, otherwise read when the read flag is
supplied, otherwise delete when the delete flag is supplied — and when none
is supplied the program prints the usage text and returns successfully. -/
theorem c9_intents_mutually_exclusive (args : CmdArgs) (content : String)
    (clock : Timestamp) (map : Collection) :
    (∃ n, args.name = some n ∧
      dispatch args content clock map = createRun n content clock map) ∨
    (∃ n, args.name = none ∧ args.read = some n ∧
      dispatch args content clock map = readRun n map) ∨
    (∃ n, args.name = none ∧ args.read = none ∧ args.delete = some n ∧
      dispatch args content clock map = deleteRun n map) ∨
    (args.name = none ∧ args.read = none ∧ args.delete = none ∧
      dispatch args content clock map = .ok usageLines none) := by
  cases hn : args.name with
  | some n =>
    left
    exact ⟨n, rfl, by simp only [dispatch, hn]⟩
  | none =>
    cases hr : args.read with
    | some n =>
      right; left
      exact ⟨n, rfl, rfl, by simp only [dispatch, hn, hr]⟩
    | none =>
      cases hd : args.delete with
      | some n =>
        right; right; left
        exact ⟨n, rfl, rfl, rfl, by simp only [dispatch, hn, hr, hd]⟩
      | none =>
        right; right; right
        exact ⟨rfl, rfl, rfl, by simp only [dispatch, hn, hr, hd]⟩
